import Mathlib

/-
Verification of the extraction-normalization-validation pipeline of the
ai-trading-tracker repository (src/bot.py, src/webhook_bot.py, src/config.py).

The oracle (language model) and the ledger are external collaborators; the
pipeline is modelled as a function of the attempt-indexed results of
"sanitize + json.loads of the oracle's text".  Python dicts of extracted
fields become association lists of `PVal` values; Python int/float
arithmetic is modelled over `ℚ` (exactly the formulas the source computes);
`round(x, 2)` is modelled as exact round-half-to-even at two decimals.
-/

namespace TradingTracker

/-- A Python value appearing as a field of the mapping parsed from the
oracle response: `vnull` models `None` (also the result of `dict.get` on a
missing key), `vnum` models int/float numbers as exact rationals, `vstr`
strings, `vbool` booleans. -/
inductive PVal where
  | vnull
  | vnum (q : ℚ)
  | vstr (s : String)
  | vbool (b : Bool)
deriving DecidableEq

/-- A Python dict with string keys, as an association list. -/
abbrev PMap := List (String × PVal)

/-- Python `dict.get k`: the stored value, or `None` when the key is absent. -/
def pget : PMap → String → PVal
  | [], _ => .vnull
  | (k', v') :: rest, k => if k' = k then v' else pget rest k

/-- Python `k in dict` (key presence, independent of the stored value). -/
def hasKey : PMap → String → Bool
  | [], _ => false
  | (k', _) :: rest, k => k' = k || hasKey rest k

/-- Python `dict[k] = v`. -/
def pset : PMap → String → PVal → PMap
  | [], k, v => [(k, v)]
  | (k', v') :: rest, k, v => if k' = k then (k, v) :: rest else (k', v') :: pset rest k v

/-- Python `dict.setdefault k v`: keeps any present value (even `None`). -/
def setdefault (m : PMap) (k : String) (v : PVal) : PMap :=
  if hasKey m k then m else pset m k v

/-- Python truthiness of a field value (`if v:`). -/
def truthy : PVal → Bool
  | .vnull => false
  | .vnum q => decide (q ≠ 0)
  | .vstr s => decide (s ≠ "")
  | .vbool b => b

/-- Python `v == 0` for a field value (`bool` compares as an int). -/
def pyEqZero : PVal → Bool
  | .vnum q => decide (q = 0)
  | .vbool b => !b
  | _ => false

/-- Numeric view of a field value; `none` models the `TypeError` Python
raises when arithmetic hits a non-number (`bool` is an int in Python). -/
def asNum : PVal → Option ℚ
  | .vnum q => some q
  | .vbool true => some 1
  | .vbool false => some 0
  | _ => none

/-- Round half to even to the nearest integer, the rule of Python `round`. -/
def rhalfeven (x : ℚ) : ℤ :=
  let f := ⌊x⌋
  let r := x - (f : ℚ)
  if r < 1/2 then f
  else if 1/2 < r then f + 1
  else if f % 2 = 0 then f else f + 1

/-- Python `round(x, 2)` modelled exactly over `ℚ`. -/
def pyround2 (x : ℚ) : ℚ := ((rhalfeven (x * 100) : ℚ)) / 100

/-- The profit/loss completion step of `GeminiExtractor.extract` in
src/bot.py (lines 168-193): when the extracted `profit_loss` is `None` or
`== 0`, derive `(sell - buy) * quantity` (regardless of direction) when
`buy_price`, `sell_price`, `quantity` are all truthy, otherwise fall back
to `0` (both the `capital_invested` branch and the final branch store 0).
`none` models a raised `TypeError` on non-numeric operands. -/
def botPnlStep (m : PMap) : Option PMap :=
  let pl := pget m "profit_loss"
  if pl = .vnull || pyEqZero pl then
    let buy := pget m "buy_price"
    let sell := pget m "sell_price"
    let qty := pget m "quantity"
    if truthy buy && truthy sell && truthy qty then
      match asNum buy, asNum sell, asNum qty with
      | some b, some s, some q =>
          some (pset m "profit_loss" (.vnum (pyround2 ((s - b) * q))))
      | _, _, _ => none
    else if truthy (pget m "capital_invested") then
      some (pset m "profit_loss" (.vnum 0))
    else
      some (pset m "profit_loss" (.vnum 0))
  else
    some m

/-- The trailing defaults of `GeminiExtractor.extract` in src/bot.py
(lines 199-202), in source order. -/
def botDefaults (m : PMap) (today : String) : PMap :=
  setdefault (setdefault (setdefault (setdefault m "date" (.vstr today))
    "symbol" (.vstr "UNKNOWN")) "instrument_type" (.vstr "Equity"))
    "trade_direction" (.vstr "Unknown")

/-- Field completion of `GeminiExtractor.extract` in src/bot.py applied to
the parsed mapping: P&L step, then `raw_message` assignment (line 196),
then the defaults. -/
def botComplete (m : PMap) (raw today : String) : Option PMap :=
  (botPnlStep m).map (fun m1 => botDefaults (pset m1 "raw_message" (.vstr raw)) today)

/-- The profit/loss completion step of `GeminiExtractor.extract` in
src/webhook_bot.py (lines 141-154): guard is `not data.get('profit_loss')
or data['profit_loss'] is None`; for direction `"Short"` the sign is
inverted, otherwise `(sell - buy) * quantity`; fallback stores 0. -/
def webhookPnlStep (m : PMap) : Option PMap :=
  let pl := pget m "profit_loss"
  if !truthy pl || pl = .vnull then
    let buy := pget m "buy_price"
    let sell := pget m "sell_price"
    let qty := pget m "quantity"
    if truthy buy && truthy sell && truthy qty then
      match asNum buy, asNum sell, asNum qty with
      | some b, some s, some q =>
          let pnl := if pget m "trade_direction" = .vstr "Short"
            then (b - s) * q else (s - b) * q
          some (pset m "profit_loss" (.vnum (pyround2 pnl)))
      | _, _, _ => none
    else
      some (pset m "profit_loss" (.vnum 0))
  else
    some m

/-- The trailing defaults of `GeminiExtractor.extract` in
src/webhook_bot.py (lines 159-161), in source order. -/
def webhookDefaults (m : PMap) : PMap :=
  setdefault (setdefault (setdefault m "symbol" (.vstr "UNKNOWN"))
    "instrument_type" (.vstr "Equity")) "trade_direction" (.vstr "Long")

/-- Field completion of `GeminiExtractor.extract` in src/webhook_bot.py:
P&L step, then `data['date'] = today` (line 157, an unconditional
overwrite), `data['raw_message'] = raw` (line 158), then the defaults. -/
def webhookComplete (m : PMap) (raw today : String) : Option PMap :=
  (webhookPnlStep m).map (fun m1 =>
    webhookDefaults (pset (pset m1 "date" (.vstr today)) "raw_message" (.vstr raw)))

/-- A value parsed by `json.loads` at top level in src/bot.py: an object,
or an array whose elements the code indexes as objects. -/
inductive JTop where
  | jobj (m : PMap)
  | jarr (l : List PMap)
deriving DecidableEq

/-- The list handling of src/bot.py line 165-166:
`extracted = extracted[0] if extracted else {}`. -/
def botHandleList : JTop → PMap
  | .jobj m => m
  | .jarr [] => []
  | .jarr (m :: _) => m

/-- The failures the extraction surfaces: a JSON parse failure
(`ValueError` in src/bot.py line 209, the re-raised `JSONDecodeError` in
src/webhook_bot.py line 171), or any other re-raised exception. -/
inductive ExtractErr where
  | malformed
  | typeErr
deriving DecidableEq

/-- Pipeline `GeminiExtractor.extract` of src/bot.py as a function of the
attempt-indexed oracle parse results: a single oracle invocation (index 0);
a parse failure raises immediately, with no retry. -/
def bot_extract (parseRes : ℕ → Option JTop) (raw today : String) :
    Except ExtractErr PMap :=
  match parseRes 0 with
  | none => .error .malformed
  | some t =>
      match botComplete (botHandleList t) raw today with
      | some r => .ok r
      | none => .error .typeErr

/-- Constant `max_retries` of src/webhook_bot.py line 119. -/
def maxRetries : ℕ := 2

/-- The retry loop of `GeminiExtractor.extract` in src/webhook_bot.py
(lines 120-171) over the list of per-attempt parse results: on a parse
failure, continue when an attempt remains, else surface the error; other
failures inside an attempt are re-raised without retry. -/
def webhookGo (raw today : String) : List (Option PMap) → Except ExtractErr PMap
  | [] => .error .malformed
  | some m :: _ =>
      match webhookComplete m raw today with
      | some r => .ok r
      | none => .error .typeErr
  | none :: rest => if rest = [] then .error .malformed else webhookGo raw today rest

/-- Pipeline `GeminiExtractor.extract` of src/webhook_bot.py as a function of the
attempt-indexed oracle parse results. -/
def webhook_extract (parseRes : ℕ → Option PMap) (raw today : String) :
    Except ExtractErr PMap :=
  webhookGo raw today ((List.range maxRetries).map parseRes)

/-- The risk limits of src/config.py (env-configurable). -/
structure Limits where
  maxLossPerTrade : ℚ
  maxLossPerDay : ℚ
  tradingCapital : ℚ
  maxRiskPct : ℚ

/-- The warnings `RiskManager.validate_trade` can append, as tags (the
formatted message texts carry no further logic). -/
inductive Warn where
  | perTradeLoss
  | dailyBreach
  | stopTrading
  | riskPct
  | emotional
deriving DecidableEq

/-- The dict returned by `RiskManager.validate_trade`. -/
structure RiskCheck where
  valid : Bool
  warnings : List Warn
  today_pnl : ℚ

/-- The adverse emotion tags of src/bot.py line 254. -/
def adverseEmotions : List String := ["FOMO", "Revenge", "Fear", "Greed"]

/-- Python `v and (v in listOfStrings)` for a field value. -/
def pyInStr (v : PVal) (l : List String) : Bool :=
  match v with
  | .vstr s => l.contains s
  | _ => false

/-- Method `RiskManager.validate_trade` of src/bot.py (lines 220-261): four checks
in source order; only the daily-loss check sets `block_trade`.  `none`
models the `TypeError`/`KeyError` Python raises when `profit_loss` is not
a number. -/
def validate_trade (cfg : Limits) (m : PMap) (todayPnl : ℚ) : Option RiskCheck :=
  match asNum (pget m "profit_loss") with
  | none => none
  | some pnl =>
    let w1 : List Warn := if pnl < cfg.maxLossPerTrade then [.perTradeLoss] else []
    let projected := todayPnl + pnl
    let breach : Bool := decide (projected < cfg.maxLossPerDay)
    let w2 : List Warn := if breach then [.dailyBreach, .stopTrading] else []
    let w3 : List Warn :=
      if truthy (pget m "capital_invested") then
        if |pnl / cfg.tradingCapital * 100| > cfg.maxRiskPct then [.riskPct] else []
      else []
    let emo := pget m "emotion"
    let w4 : List Warn := if truthy emo && pyInStr emo adverseEmotions then [.emotional] else []
    some ⟨!breach, w1 ++ w2 ++ w3 ++ w4, projected⟩

/-- Method `RiskManager.validate_trade` of src/webhook_bot.py (lines 187-201):
only the per-trade and daily checks exist in this variant. -/
def webhook_validate_trade (cfg : Limits) (m : PMap) (todayPnl : ℚ) :
    Option RiskCheck :=
  match asNum (pget m "profit_loss") with
  | none => none
  | some pnl =>
    let w1 : List Warn := if pnl < cfg.maxLossPerTrade then [.perTradeLoss] else []
    let projected := todayPnl + pnl
    let breach : Bool := decide (projected < cfg.maxLossPerDay)
    let w2 : List Warn := if breach then [.dailyBreach, .stopTrading] else []
    some ⟨!breach, w1 ++ w2, projected⟩

/-- The win/loss label derived in `SheetsManager.append_trade`
(src/bot.py line 52, src/webhook_bot.py line 35):
`"Win" if pnl > 0 else "Loss"`. -/
def win_loss (pnl : ℚ) : String := if pnl > 0 then "Win" else "Loss"

/-- The backtick character, written by code point to keep it out of the
source text. -/
def btick : Char := Char.ofNat 96

/-- The opening brace character. -/
def lbrace : Char := Char.ofNat 123

/-- The closing brace character. -/
def rbrace : Char := Char.ofNat 125

/-- The whitespace set of Python `str.strip` and of the regex class
`\s` (ASCII): space, tab, newline, carriage return, vertical tab,
form feed. -/
def pyWs (c : Char) : Bool :=
  c = ' ' || c = '\t' || c = '\n' || c = '\r' || c = Char.ofNat 11 || c = Char.ofNat 12

/-- Python `str.strip()`. -/
def pyStrip (l : List Char) : List Char :=
  ((l.dropWhile pyWs).reverse.dropWhile pyWs).reverse

/-- Whether a list starts with three backticks. -/
def check3 (l : List Char) : Bool := l.take 3 == [btick, btick, btick]

/-- Python `'…' in text` for the three-backtick fence marker
(substring search). -/
def contains3 : List Char → Bool
  | [] => false
  | c :: rest => check3 (c :: rest) || contains3 rest

/-- Python `text.split('…')` on the three-backtick fence marker, written
with explicit fuel (one unit per consumed character) so the function stays
structurally recursive; `fsplit` supplies enough fuel. -/
def fsplitF : ℕ → List Char → List Char → List (List Char)
  | 0, acc, l => [acc.reverse ++ l]
  | fuel + 1, acc, l =>
    match l with
    | c1 :: c2 :: c3 :: rest =>
      if c1 = btick && c2 = btick && c3 = btick then
        acc.reverse :: fsplitF fuel [] rest
      else
        fsplitF fuel (c1 :: acc) (c2 :: c3 :: rest)
    | _ => [acc.reverse ++ l]

/-- Python `text.split` on the fence marker. -/
def fsplit (l : List Char) : List (List Char) := fsplitF l.length [] l

/-- Python `part.startswith('json')` on an already stripped part. -/
def startsWithJson (l : List Char) : Bool := l.take 4 == ['j', 's', 'o', 'n']

/-- The part-selection loop of `GeminiExtractor.clean_json_response`
(src/webhook_bot.py lines 70-79): the first stripped part that starts with
a json tag (the tag is dropped and the rest stripped) or with an opening
brace; `none` when no part qualifies (the loop falls through and the text
stays unchanged). -/
def selectPart : List (List Char) → Option (List Char)
  | [] => none
  | p :: rest =>
    let s := pyStrip p
    if startsWithJson s then some (pyStrip (s.drop 4))
    else
      match s with
      | c :: _ => if c = lbrace then some s else selectPart rest
      | [] => selectPart rest

/-- The markdown-fence removal step of `clean_json_response`
(src/webhook_bot.py lines 70-79). -/
def fenceSel (t : List Char) : List Char :=
  if contains3 t then
    match selectPart (fsplit t) with
    | some s => s
    | none => t
  else t

/-- Decompose a text at its first opening brace:
`some (pre, rest)` with `text = pre ++ lbrace :: rest`, or `none` when the
text has no opening brace (Python `text.find('…') == -1`). -/
def splitBrace : List Char → Option (List Char × List Char)
  | [] => none
  | c :: cs =>
    if c = lbrace then some ([], cs)
    else
      match splitBrace cs with
      | none => none
      | some (p, r) => some (c :: p, r)

/-- The balanced-brace scan of `clean_json_response` (src/webhook_bot.py
lines 82-95), starting just after the first opening brace with depth `n`:
the consumed span up to and including the brace that returns the depth to
zero, or `none` when the scan exhausts the text. -/
def takeBal : List Char → ℕ → Option (List Char)
  | [], _ => none
  | c :: cs, n =>
    if c = lbrace then (takeBal cs (n + 1)).map (fun out => c :: out)
    else if c = rbrace then
      if n = 1 then some [c]
      else (takeBal cs (n - 1)).map (fun out => c :: out)
    else (takeBal cs n).map (fun out => c :: out)

/-- The brace-slicing step of `clean_json_response` (src/webhook_bot.py
lines 81-98): slice from the first opening brace to its depth-zero closing
brace; leave the text unchanged when there is no opening brace or the scan
finds no closing position. -/
def braceSlice (t : List Char) : List Char :=
  match splitBrace t with
  | none => t
  | some (_, rest) =>
    match takeBal rest 1 with
    | none => t
    | some out => lbrace :: out

/-- Whether, after the whitespace following a comma, the next character is
a closing brace or bracket — the lookahead of the regex
`,(\s*[}\]])` of src/webhook_bot.py line 101. -/
def commaMatch (l : List Char) : Bool :=
  match l.dropWhile pyWs with
  | b :: _ => b = rbrace || b = ']'
  | [] => false

/-- Python `re.sub(r',(\s*[}\]])', r'\1', text)` of src/webhook_bot.py line 101.
The substitution deletes each comma whose lookahead matches; this
pointwise form equals `re.sub`'s left-to-right non-overlapping scan
because the characters a match consumes beyond the comma (whitespace and
one closing bracket) can never start another match. -/
def commaSub : List Char → List Char
  | [] => []
  | c :: rest =>
    if c = ',' && commaMatch rest then commaSub rest
    else c :: commaSub rest

/-- Method `GeminiExtractor.clean_json_response` of src/webhook_bot.py
(lines 65-103): fence removal, then brace slicing, then trailing-comma
repair. -/
def clean_json_response (t : List Char) : List Char :=
  commaSub (braceSlice (fenceSel t))

/-- Relation stating that `ds` is `cs` with some commas deleted — the shape of
`commaSub`'s effect on a text, used to transfer brace-scan facts across
the comma-repair step. -/
inductive Del : List Char → List Char → Prop where
  | nil : Del [] []
  | keep (c : Char) {cs ds : List Char} : Del cs ds → Del (c :: cs) (c :: ds)
  | drop {cs ds : List Char} : Del cs ds → Del (',' :: cs) ds

/-- JSON whitespace. -/
def jws (c : Char) : Bool := c = ' ' || c = '\t' || c = '\n' || c = '\r'

/-- A hexadecimal digit. -/
def isHex (c : Char) : Bool :=
  c.isDigit || (('a' ≤ c && c ≤ 'f') || ('A' ≤ c && c ≤ 'F'))

/-- Consume the body of a JSON string after its opening quote, validating
escapes and control-character exclusion; returns the text after the
closing quote. -/
def parseStrBody : ℕ → List Char → Option (List Char)
  | 0, _ => none
  | _, [] => none
  | fuel + 1, c :: rest =>
    if c = '\"' then some rest
    else if c = '\\' then
      match rest with
      | e :: rest2 =>
        if e = '\"' || e = '\\' || e = '/' || e = 'b' || e = 'f' ||
            e = 'n' || e = 'r' || e = 't' then
          parseStrBody fuel rest2
        else if e = 'u' then
          match rest2 with
          | h1 :: h2 :: h3 :: h4 :: rest3 =>
            if isHex h1 && isHex h2 && isHex h3 && isHex h4 then
              parseStrBody fuel rest3
            else none
          | _ => none
        else none
      | [] => none
    else if 32 ≤ c.toNat then parseStrBody fuel rest else none

/-- Consume the exponent part of a JSON number, if present. -/
def parseExp (l : List Char) : Option (List Char) :=
  match l with
  | c :: rest =>
    if c = 'e' || c = 'E' then
      let rest2 := match rest with
        | d :: r2 => if d = '+' || d = '-' then r2 else rest
        | [] => rest
      match rest2 with
      | d :: _ => if d.isDigit then some (rest2.dropWhile Char.isDigit) else none
      | [] => none
    else some l
  | [] => some l

/-- Consume the fraction and exponent parts of a JSON number, if present. -/
def parseFrac (l : List Char) : Option (List Char) :=
  match l with
  | c :: rest =>
    if c = '.' then
      match rest with
      | d :: _ => if d.isDigit then parseExp (rest.dropWhile Char.isDigit) else none
      | [] => none
    else parseExp l
  | [] => parseExp l

/-- Consume a JSON number: optional minus, integer part without leading
zeros, optional fraction and exponent. -/
def parseNum (l : List Char) : Option (List Char) :=
  let l1 := match l with
    | c :: rest => if c = '-' then rest else l
    | [] => l
  match l1 with
  | c :: rest =>
    if c = '0' then parseFrac rest
    else if c.isDigit then parseFrac (rest.dropWhile Char.isDigit)
    else none
  | [] => none

/-- The three states of the JSON recogniser: a value, the members of an
object after its opening brace (at least one pair expected), the elements
of an array after its opening bracket (at least one element expected). -/
inductive JMode where
  | val
  | objMore
  | arrMore

/-- A fuel-indexed recogniser for the JSON grammar (RFC 8259 values);
returns the unconsumed remainder on success. -/
def parseJ : ℕ → JMode → List Char → Option (List Char)
  | 0, _, _ => none
  | fuel + 1, .val, l =>
    match l.dropWhile jws with
    | [] => none
    | c :: rest =>
      if c = '\"' then parseStrBody (rest.length + 1) rest
      else if c = lbrace then
        match rest.dropWhile jws with
        | d :: rest2 => if d = rbrace then some rest2 else parseJ fuel .objMore (rest.dropWhile jws)
        | [] => none
      else if c = '[' then
        match rest.dropWhile jws with
        | d :: rest2 => if d = ']' then some rest2 else parseJ fuel .arrMore (rest.dropWhile jws)
        | [] => none
      else if c = 't' then
        match rest with
        | 'r' :: 'u' :: 'e' :: r => some r
        | _ => none
      else if c = 'f' then
        match rest with
        | 'a' :: 'l' :: 's' :: 'e' :: r => some r
        | _ => none
      else if c = 'n' then
        match rest with
        | 'u' :: 'l' :: 'l' :: r => some r
        | _ => none
      else parseNum (c :: rest)
  | fuel + 1, .objMore, l =>
    match l.dropWhile jws with
    | c :: rest =>
      if c = '\"' then
        match parseStrBody (rest.length + 1) rest with
        | some afterKey =>
          match afterKey.dropWhile jws with
          | d :: rest2 =>
            if d = ':' then
              match parseJ fuel .val rest2 with
              | some afterVal =>
                match afterVal.dropWhile jws with
                | e :: rest3 =>
                  if e = ',' then parseJ fuel .objMore rest3
                  else if e = rbrace then some rest3
                  else none
                | [] => none
              | none => none
            else none
          | [] => none
        | none => none
      else none
    | [] => none
  | fuel + 1, .arrMore, l =>
    match parseJ fuel .val l with
    | some afterVal =>
      match afterVal.dropWhile jws with
      | e :: rest3 =>
        if e = ',' then parseJ fuel .arrMore rest3
        else if e = ']' then some rest3
        else none
      | [] => none
    | none => none

/-- Whether a text is exactly the serialization of one JSON object
(first character an opening brace, the whole text consumed as one JSON
value). -/
def isJsonObject (l : List Char) : Bool :=
  match l with
  | c :: _ =>
    c = lbrace &&
      (match parseJ (l.length + 1) .val l with
       | some r => r.isEmpty
       | none => false)
  | [] => false

/-- A parsed Short-direction mapping with no stated profit/loss:
buy 10, sell 5, quantity 2. -/
def mShort1 : PMap :=
  [("profit_loss", PVal.vnull), ("trade_direction", PVal.vstr "Short"),
   ("buy_price", PVal.vnum 10), ("sell_price", PVal.vnum 5),
   ("quantity", PVal.vnum 2)]

/-- A parsed Long-direction mapping with no stated profit/loss:
buy 10, sell 12, quantity 3. -/
def mLong3 : PMap :=
  [("profit_loss", PVal.vnull), ("trade_direction", PVal.vstr "Long"),
   ("buy_price", PVal.vnum 10), ("sell_price", PVal.vnum 12),
   ("quantity", PVal.vnum 3)]

/-- A parsed mapping carrying an oracle-supplied date. -/
def mDate6 : PMap :=
  [("date", PVal.vstr "2020-01-01"), ("profit_loss", PVal.vnum 5)]

/-- An attempt-indexed oracle parse outcome whose first attempt fails to
parse and whose second attempt parses to an object. -/
def cexParse4 : ℕ → Option JTop :=
  fun i => if i = 0 then none else some (JTop.jobj [("profit_loss", PVal.vnum 100)])

/-- The same attempt-indexed outcome in the webhook pipeline's shape. -/
def cexParse4w : ℕ → Option PMap :=
  fun i => if i = 0 then none else some [("profit_loss", PVal.vnum 100)]

/-- The serialized JSON object whose string value contains a fence
marker. -/
def ex8obj : List Char :=
  [lbrace, '\"', 'a', '\"', ':', '\"', btick, btick, btick, '\"', rbrace]

/-- A text containing exactly one JSON object (the object's string value
contains a fence marker), preceded by a non-fence character and followed
by trailing prose. -/
def ex8 : List Char :=
  'x' :: ex8obj ++ ['r', 'e', 's', 't']

/-- The serialized JSON object whose string value contains two
consecutive commas before a closing bracket. -/
def ex8bobj : List Char :=
  [lbrace, '\"', 'a', '\"', ':', '\"', ',', ',', ']', '\"', rbrace]

/-- A text containing exactly one JSON object — whose string value
contains consecutive commas before a closing bracket — followed by
trailing prose, with no fence marker anywhere. -/
def ex8b : List Char := ex8bobj ++ [' ', 't']

/-- A text containing exactly one JSON object with leading noise and
trailing prose and no fence marker. -/
def wit8 : List Char :=
  ['n', 'o', 'i', 's', 'e', ' ', lbrace, '\"', 'a', '\"', ':', '1', rbrace,
   ' ', 't', 'a', 'i', 'l']

theorem pget_pset_same (m : PMap) (k : String) (v : PVal) :
    pget (pset m k v) k = v := by
  induction m with
  | nil => simp [pset, pget]
  | cons kv rest ih =>
    obtain ⟨k', v'⟩ := kv
    by_cases h : k' = k
    · subst h; simp [pset, pget]
    · simp [pset, pget, h, ih]

theorem pget_pset_ne (m : PMap) {k k' : String} (v : PVal) (h : k ≠ k') :
    pget (pset m k v) k' = pget m k' := by
  induction m with
  | nil => simp [pset, pget, h]
  | cons kv rest ih =>
    obtain ⟨a, b⟩ := kv
    by_cases ha : a = k
    · subst ha; simp [pset, pget, h]
    · simp [pset, pget, ha, ih]

theorem hasKey_pset_ne (m : PMap) {k k' : String} (v : PVal) (h : k ≠ k') :
    hasKey (pset m k v) k' = hasKey m k' := by
  induction m with
  | nil => simp [pset, hasKey, h]
  | cons kv rest ih =>
    obtain ⟨a, b⟩ := kv
    by_cases ha : a = k
    · subst ha; simp [pset, hasKey, h]
    · simp [pset, hasKey, ha, ih]

theorem pget_setdefault_ne (m : PMap) {k k' : String} (v : PVal) (h : k ≠ k') :
    pget (setdefault m k v) k' = pget m k' := by
  unfold setdefault
  by_cases hk : hasKey m k <;> simp [hk, pget_pset_ne m v h]

theorem pget_setdefault_pos (m : PMap) {k : String} (v : PVal)
    (h : hasKey m k = true) : pget (setdefault m k v) k = pget m k := by
  simp [setdefault, h]

theorem pget_setdefault_neg (m : PMap) {k : String} (v : PVal)
    (h : hasKey m k = false) : pget (setdefault m k v) k = v := by
  simp [setdefault, h, pget_pset_same]

theorem botPnlStep_shape (m m1 : PMap) (h : botPnlStep m = some m1) :
    m1 = m ∨ ∃ w, m1 = pset m "profit_loss" w := by
  dsimp only [botPnlStep] at h
  split at h
  · split at h
    · split at h
      · exact Or.inr ⟨_, (Option.some.inj h).symm⟩
      · exact absurd h (by simp)
    · split at h
      · exact Or.inr ⟨_, (Option.some.inj h).symm⟩
      · exact Or.inr ⟨_, (Option.some.inj h).symm⟩
  · exact Or.inl (Option.some.inj h).symm

theorem webhookPnlStep_shape (m m1 : PMap) (h : webhookPnlStep m = some m1) :
    m1 = m ∨ ∃ w, m1 = pset m "profit_loss" w := by
  dsimp only [webhookPnlStep] at h
  split at h
  · split at h
    · split at h
      · exact Or.inr ⟨_, (Option.some.inj h).symm⟩
      · exact absurd h (by simp)
    · exact Or.inr ⟨_, (Option.some.inj h).symm⟩
  · exact Or.inl (Option.some.inj h).symm

theorem botPnlStep_pget (m m1 : PMap) (h : botPnlStep m = some m1)
    (k : String) (hk : k ≠ "profit_loss") : pget m1 k = pget m k := by
  rcases botPnlStep_shape m m1 h with rfl | ⟨w, rfl⟩
  · rfl
  · exact pget_pset_ne m w (Ne.symm hk)

theorem botPnlStep_hasKey (m m1 : PMap) (h : botPnlStep m = some m1)
    (k : String) (hk : k ≠ "profit_loss") : hasKey m1 k = hasKey m k := by
  rcases botPnlStep_shape m m1 h with rfl | ⟨w, rfl⟩
  · rfl
  · exact hasKey_pset_ne m w (Ne.symm hk)

theorem webhookPnlStep_pget (m m1 : PMap) (h : webhookPnlStep m = some m1)
    (k : String) (hk : k ≠ "profit_loss") : pget m1 k = pget m k := by
  rcases webhookPnlStep_shape m m1 h with rfl | ⟨w, rfl⟩
  · rfl
  · exact pget_pset_ne m w (Ne.symm hk)

/-- C10: at persistence time the derived win/loss label is "Win" exactly
when the profit/loss is positive and "Loss" otherwise; in particular a
trade whose profit/loss is exactly 0 is labeled "Loss". -/
theorem c10_win_loss_label :
    ∀ pnl : ℚ, (win_loss pnl = "Win" ↔ 0 < pnl) ∧ win_loss 0 = "Loss" := by
  intro pnl
  constructor
  · by_cases h : 0 < pnl
    · simp [win_loss, h]
    · rw [win_loss, if_neg h]
      exact ⟨fun hc => absurd hc (by decide), fun hc => absurd hc h⟩
  · rfl

/-- C2: for both RiskManager variants, the risk evaluation returns
`valid = false` exactly when the running daily total plus the trade's
profit/loss drops below the daily loss limit — the daily rule is the only
blocking one — and the projected daily total is returned in both the
blocking and the allowing case. -/
theorem c2_daily_loss_blocking (cfg : Limits) (m : PMap) (todayPnl pnl : ℚ)
    (h : asNum (pget m "profit_loss") = some pnl) :
    (∃ rc, validate_trade cfg m todayPnl = some rc ∧
      (rc.valid = false ↔ todayPnl + pnl < cfg.maxLossPerDay) ∧
      rc.today_pnl = todayPnl + pnl) ∧
    (∃ rc, webhook_validate_trade cfg m todayPnl = some rc ∧
      (rc.valid = false ↔ todayPnl + pnl < cfg.maxLossPerDay) ∧
      rc.today_pnl = todayPnl + pnl) := by
  constructor
  · unfold validate_trade
    rw [h]
    exact ⟨_, rfl, by simp, rfl⟩
  · unfold webhook_validate_trade
    rw [h]
    exact ⟨_, rfl, by simp, rfl⟩

/-- Witness for C2 at the spec's own example: running total -4000, daily
limit -5000, trade loss -1500: the decision blocks and the projected total
-5500 is returned. -/
theorem c2_witness :
    (∃ rc, validate_trade ⟨-2000, -5000, 100000, 2⟩
        [("profit_loss", PVal.vnum (-1500))] (-4000) = some rc ∧
      (rc.valid = false ↔ (-4000 : ℚ) + (-1500) < (-5000 : ℚ)) ∧
      rc.today_pnl = (-4000 : ℚ) + (-1500)) ∧
    (∃ rc, webhook_validate_trade ⟨-2000, -5000, 100000, 2⟩
        [("profit_loss", PVal.vnum (-1500))] (-4000) = some rc ∧
      (rc.valid = false ↔ (-4000 : ℚ) + (-1500) < (-5000 : ℚ)) ∧
      rc.today_pnl = (-4000 : ℚ) + (-1500)) :=
  c2_daily_loss_blocking ⟨-2000, -5000, 100000, 2⟩
    [("profit_loss", PVal.vnum (-1500))] (-4000) (-1500) rfl

/-- C7: for every parsed mapping and both extractor variants, the
completed record's `raw_message` equals the original inbound message,
overriding any value the oracle put in that field. -/
theorem c7_raw_message_verbatim :
    ∀ (m : PMap) (raw today : String),
      (∀ r, botComplete m raw today = some r →
        pget r "raw_message" = .vstr raw) ∧
      (∀ r, webhookComplete m raw today = some r →
        pget r "raw_message" = .vstr raw) := by
  intro m raw today
  constructor
  · intro r hr
    obtain ⟨m1, hm1, hrw⟩ := Option.map_eq_some'.mp hr
    subst hrw
    unfold botDefaults
    rw [pget_setdefault_ne _ _ (by decide), pget_setdefault_ne _ _ (by decide),
      pget_setdefault_ne _ _ (by decide), pget_setdefault_ne _ _ (by decide)]
    exact pget_pset_same m1 _ _
  · intro r hr
    obtain ⟨m1, hm1, hrw⟩ := Option.map_eq_some'.mp hr
    subst hrw
    unfold webhookDefaults
    rw [pget_setdefault_ne _ _ (by decide), pget_setdefault_ne _ _ (by decide),
      pget_setdefault_ne _ _ (by decide)]
    exact pget_pset_same _ _ _

/-- Witness for C7: a mapping in which the oracle hallucinated a
`raw_message` value still completes to a record carrying the true inbound
message. -/
theorem c7_witness :
    (∀ r, botComplete [("raw_message", PVal.vstr "fake"),
        ("profit_loss", PVal.vnum 7)] "true message" "2026-10-12" = some r →
      pget r "raw_message" = .vstr "true message") ∧
    (∀ r, webhookComplete [("raw_message", PVal.vstr "fake"),
        ("profit_loss", PVal.vnum 7)] "true message" "2026-10-12" = some r →
      pget r "raw_message" = .vstr "true message") :=
  c7_raw_message_verbatim [("raw_message", PVal.vstr "fake"),
    ("profit_loss", PVal.vnum 7)] "true message" "2026-10-12"

theorem botPnlStep_derives (m : PMap) (b s q : ℚ)
    (hpl : pget m "profit_loss" = .vnull ∨ pget m "profit_loss" = .vnum 0)
    (hb : pget m "buy_price" = .vnum b) (hb0 : b ≠ 0)
    (hs : pget m "sell_price" = .vnum s) (hs0 : s ≠ 0)
    (hq : pget m "quantity" = .vnum q) (hq0 : q ≠ 0) :
    botPnlStep m = some (pset m "profit_loss" (.vnum (pyround2 ((s - b) * q)))) := by
  dsimp only [botPnlStep]
  rw [hb, hs, hq]
  rcases hpl with hpl | hpl <;> rw [hpl] <;>
    simp [truthy, pyEqZero, asNum, hb0, hs0, hq0]

theorem webhookPnlStep_derives (m : PMap) (b s q : ℚ)
    (hpl : pget m "profit_loss" = .vnull ∨ pget m "profit_loss" = .vnum 0)
    (hb : pget m "buy_price" = .vnum b) (hb0 : b ≠ 0)
    (hs : pget m "sell_price" = .vnum s) (hs0 : s ≠ 0)
    (hq : pget m "quantity" = .vnum q) (hq0 : q ≠ 0) :
    webhookPnlStep m = some (pset m "profit_loss" (.vnum (pyround2
      (if pget m "trade_direction" = .vstr "Short"
        then (b - s) * q else (s - b) * q)))) := by
  dsimp only [webhookPnlStep]
  rw [hb, hs, hq]
  rcases hpl with hpl | hpl <;> rw [hpl] <;>
    simp [truthy, pyEqZero, asNum, hb0, hs0, hq0]

theorem botComplete_pget_pnl (m m1 : PMap) (raw today : String)
    (h : botPnlStep m = some m1) :
    ∃ r, botComplete m raw today = some r ∧
      pget r "profit_loss" = pget m1 "profit_loss" := by
  refine ⟨botDefaults (pset m1 "raw_message" (.vstr raw)) today, ?_, ?_⟩
  · simp [botComplete, h]
  · unfold botDefaults
    rw [pget_setdefault_ne _ _ (by decide), pget_setdefault_ne _ _ (by decide),
      pget_setdefault_ne _ _ (by decide), pget_setdefault_ne _ _ (by decide),
      pget_pset_ne _ _ (by decide)]

theorem webhookComplete_pget_pnl (m m1 : PMap) (raw today : String)
    (h : webhookPnlStep m = some m1) :
    ∃ r, webhookComplete m raw today = some r ∧
      pget r "profit_loss" = pget m1 "profit_loss" := by
  refine ⟨webhookDefaults (pset (pset m1 "date" (.vstr today)) "raw_message"
    (.vstr raw)), ?_, ?_⟩
  · simp [webhookComplete, h]
  · unfold webhookDefaults
    rw [pget_setdefault_ne _ _ (by decide), pget_setdefault_ne _ _ (by decide),
      pget_setdefault_ne _ _ (by decide), pget_pset_ne _ _ (by decide),
      pget_pset_ne _ _ (by decide)]

theorem rhalfeven_intCast (n : ℤ) : rhalfeven (n : ℚ) = n := by
  unfold rhalfeven
  rw [Int.floor_intCast]
  norm_num

theorem pyround2_eval (n : ℤ) (x : ℚ) (h : x * 100 = (n : ℚ)) :
    pyround2 x = (n : ℚ) / 100 := by
  unfold pyround2
  rw [h, rhalfeven_intCast]

/-- C3: for every parsed mapping whose profit/loss is null or exactly
zero, with Long direction and positive buy price, sell price and quantity,
both extractor variants complete the record with
`profitLoss = round((sellPrice - buyPrice) * quantity, 2)`; and a nonzero
extracted profit/loss is left unchanged, with no derivation performed. -/
theorem c3_long_derivation_and_nonzero_preserved :
    (∀ (m : PMap) (raw today : String) (b s q : ℚ),
      (pget m "profit_loss" = .vnull ∨ pget m "profit_loss" = .vnum 0) →
      pget m "buy_price" = .vnum b → 0 < b →
      pget m "sell_price" = .vnum s → 0 < s →
      pget m "quantity" = .vnum q → 0 < q →
      pget m "trade_direction" = .vstr "Long" →
      (∃ r, botComplete m raw today = some r ∧
        pget r "profit_loss" = .vnum (pyround2 ((s - b) * q))) ∧
      (∃ r, webhookComplete m raw today = some r ∧
        pget r "profit_loss" = .vnum (pyround2 ((s - b) * q)))) ∧
    (∀ (m : PMap) (raw today : String) (c : ℚ), c ≠ 0 →
      pget m "profit_loss" = .vnum c →
      (∃ r, botComplete m raw today = some r ∧ pget r "profit_loss" = .vnum c) ∧
      (∃ r, webhookComplete m raw today = some r ∧ pget r "profit_loss" = .vnum c)) := by
  constructor
  · intro m raw today b s q hpl hb hb0 hs hs0 hq hq0 hd
    constructor
    · obtain ⟨r, hr, hp⟩ := botComplete_pget_pnl m _ raw today
        (botPnlStep_derives m b s q hpl hb hb0.ne' hs hs0.ne' hq hq0.ne')
      exact ⟨r, hr, by rw [hp, pget_pset_same]⟩
    · have h2 := webhookPnlStep_derives m b s q hpl hb hb0.ne' hs hs0.ne' hq hq0.ne'
      rw [hd, if_neg (by decide)] at h2
      obtain ⟨r, hr, hp⟩ := webhookComplete_pget_pnl m _ raw today h2
      exact ⟨r, hr, by rw [hp, pget_pset_same]⟩
  · intro m raw today c hc hpl
    have h1 : botPnlStep m = some m := by
      dsimp only [botPnlStep]
      rw [hpl]
      simp [pyEqZero, hc]
    have h2 : webhookPnlStep m = some m := by
      dsimp only [webhookPnlStep]
      rw [hpl]
      simp [truthy, hc]
    constructor
    · obtain ⟨r, hr, hp⟩ := botComplete_pget_pnl m m raw today h1
      exact ⟨r, hr, by rw [hp, hpl]⟩
    · obtain ⟨r, hr, hp⟩ := webhookComplete_pget_pnl m m raw today h2
      exact ⟨r, hr, by rw [hp, hpl]⟩

/-- Witness for C3: a Long trade with buy 10, sell 12, quantity 3 derives
profit/loss 6 in both variants; an explicit profit/loss of 42 is kept. -/
theorem c3_witness :
    ((∃ r, botComplete mLong3 "msg" "2026-10-12" = some r ∧
        pget r "profit_loss" = .vnum (pyround2 ((12 - 10) * 3))) ∧
     (∃ r, webhookComplete mLong3 "msg" "2026-10-12" = some r ∧
        pget r "profit_loss" = .vnum (pyround2 ((12 - 10) * 3)))) ∧
    ((∃ r, botComplete [("profit_loss", PVal.vnum 42)] "msg" "2026-10-12" = some r ∧
        pget r "profit_loss" = .vnum 42) ∧
     (∃ r, webhookComplete [("profit_loss", PVal.vnum 42)] "msg" "2026-10-12" = some r ∧
        pget r "profit_loss" = .vnum 42)) :=
  ⟨c3_long_derivation_and_nonzero_preserved.1 mLong3 "msg" "2026-10-12" 10 12 3
      (Or.inl rfl) rfl (by norm_num) rfl (by norm_num) rfl (by norm_num) rfl,
   c3_long_derivation_and_nonzero_preserved.2 [("profit_loss", PVal.vnum 42)]
      "msg" "2026-10-12" 42 (by norm_num) rfl⟩

/-- C1 counterexample: on the Short mapping with buy 10, sell 5,
quantity 2 the src/bot.py completion stores
`round((sell - buy) * qty, 2) = -10`, not the claimed
`round((buy - sell) * qty, 2) = 10`. -/
theorem c1_counterexample :
    ∃ r, botComplete mShort1 "msg" "2026-10-12" = some r ∧
      pget r "profit_loss" = PVal.vnum (-10) ∧
      pget r "profit_loss" ≠ PVal.vnum (pyround2 ((10 - 5) * 2)) := by
  obtain ⟨r, hr, hp⟩ := botComplete_pget_pnl mShort1 _ "msg" "2026-10-12"
    (botPnlStep_derives mShort1 10 5 2 (Or.inl rfl) rfl (by norm_num) rfl
      (by norm_num) rfl (by norm_num))
  rw [pget_pset_same] at hp
  have e1 : pyround2 ((5 - 10) * 2) = -10 := by
    rw [pyround2_eval (-1000) _ (by norm_num)]
    norm_num
  have e2 : pyround2 ((10 - 5) * 2) = 10 := by
    rw [pyround2_eval 1000 _ (by norm_num)]
    norm_num
  refine ⟨r, hr, by rw [hp, e1], ?_⟩
  rw [hp, e1, e2]
  intro hcc
  exact absurd (PVal.vnum.inj hcc) (by norm_num)

/-- C1 amended: the webhook variant inverts the sign for Short direction
as claimed; the src/bot.py variant ignores the direction and applies the
Long formula `round((sellPrice - buyPrice) * quantity, 2)` even when the
direction is Short. -/
theorem c1_short_direction_by_variant :
    ∀ (m : PMap) (raw today : String) (b s q : ℚ),
      (pget m "profit_loss" = .vnull ∨ pget m "profit_loss" = .vnum 0) →
      pget m "buy_price" = .vnum b → 0 < b →
      pget m "sell_price" = .vnum s → 0 < s →
      pget m "quantity" = .vnum q → 0 < q →
      pget m "trade_direction" = .vstr "Short" →
      (∃ r, webhookComplete m raw today = some r ∧
        pget r "profit_loss" = .vnum (pyround2 ((b - s) * q))) ∧
      (∃ r, botComplete m raw today = some r ∧
        pget r "profit_loss" = .vnum (pyround2 ((s - b) * q))) := by
  intro m raw today b s q hpl hb hb0 hs hs0 hq hq0 hd
  constructor
  · have h2 := webhookPnlStep_derives m b s q hpl hb hb0.ne' hs hs0.ne' hq hq0.ne'
    rw [hd, if_pos rfl] at h2
    obtain ⟨r, hr, hp⟩ := webhookComplete_pget_pnl m _ raw today h2
    exact ⟨r, hr, by rw [hp, pget_pset_same]⟩
  · obtain ⟨r, hr, hp⟩ := botComplete_pget_pnl m _ raw today
      (botPnlStep_derives m b s q hpl hb hb0.ne' hs hs0.ne' hq hq0.ne')
    exact ⟨r, hr, by rw [hp, pget_pset_same]⟩

/-- Witness for the amended C1 on the Short mapping with buy 10, sell 5,
quantity 2: the webhook variant derives +10, the src/bot.py variant -10. -/
theorem c1_witness :
    (∃ r, webhookComplete mShort1 "msg" "2026-10-12" = some r ∧
      pget r "profit_loss" = .vnum (pyround2 ((10 - 5) * 2))) ∧
    (∃ r, botComplete mShort1 "msg" "2026-10-12" = some r ∧
      pget r "profit_loss" = .vnum (pyround2 ((5 - 10) * 2))) :=
  c1_short_direction_by_variant mShort1 "msg" "2026-10-12" 10 5 2
    (Or.inl rfl) rfl (by norm_num) rfl (by norm_num) rfl (by norm_num) rfl

/-- C9: when the extracted profit/loss is null or zero and any one of
buy price, sell price or quantity is exactly 0 — even though the field is
present — both variants skip the price-based derivation (the guard tests
truthiness, and 0 is falsy) and store profit/loss 0. -/
theorem c9_zero_guard_truthiness :
    ∀ (m : PMap) (raw today : String),
      (pget m "profit_loss" = .vnull ∨ pget m "profit_loss" = .vnum 0) →
      (pget m "buy_price" = .vnum 0 ∨ pget m "sell_price" = .vnum 0 ∨
        pget m "quantity" = .vnum 0) →
      (∃ r, botComplete m raw today = some r ∧ pget r "profit_loss" = .vnum 0) ∧
      (∃ r, webhookComplete m raw today = some r ∧ pget r "profit_loss" = .vnum 0) := by
  intro m raw today hpl hz
  have hguard : (truthy (pget m "buy_price") && truthy (pget m "sell_price") &&
      truthy (pget m "quantity")) = false := by
    rcases hz with hz | hz | hz <;> rw [hz] <;> simp [truthy]
  have h1 : botPnlStep m = some (pset m "profit_loss" (.vnum 0)) := by
    dsimp only [botPnlStep]
    rcases hpl with hpl | hpl <;> rw [hpl] <;>
      rw [hguard] <;>
      by_cases hc : truthy (pget m "capital_invested") <;>
      simp [pyEqZero, hc]
  have h2 : webhookPnlStep m = some (pset m "profit_loss" (.vnum 0)) := by
    dsimp only [webhookPnlStep]
    rcases hpl with hpl | hpl <;> rw [hpl] <;> rw [hguard] <;> simp [truthy]
  constructor
  · obtain ⟨r, hr, hp⟩ := botComplete_pget_pnl m _ raw today h1
    exact ⟨r, hr, by rw [hp, pget_pset_same]⟩
  · obtain ⟨r, hr, hp⟩ := webhookComplete_pget_pnl m _ raw today h2
    exact ⟨r, hr, by rw [hp, pget_pset_same]⟩

/-- Witness for C9: quantity present but 0, prices present and positive:
both variants store profit/loss 0. -/
theorem c9_witness :
    (∃ r, botComplete [("profit_loss", PVal.vnum 0), ("buy_price", PVal.vnum 10),
        ("sell_price", PVal.vnum 12), ("quantity", PVal.vnum 0)]
        "msg" "2026-10-12" = some r ∧ pget r "profit_loss" = .vnum 0) ∧
    (∃ r, webhookComplete [("profit_loss", PVal.vnum 0), ("buy_price", PVal.vnum 10),
        ("sell_price", PVal.vnum 12), ("quantity", PVal.vnum 0)]
        "msg" "2026-10-12" = some r ∧ pget r "profit_loss" = .vnum 0) :=
  c9_zero_guard_truthiness [("profit_loss", PVal.vnum 0), ("buy_price", PVal.vnum 10),
    ("sell_price", PVal.vnum 12), ("quantity", PVal.vnum 0)]
    "msg" "2026-10-12" (Or.inr rfl) (Or.inr (Or.inr rfl))

/-- C4 counterexample: on an oracle whose first response fails to parse
and whose second parses to an object, the src/bot.py pipeline surfaces the
malformed-response error immediately — it never re-invokes the oracle —
while the webhook pipeline's retry returns a record from the second
attempt. -/
theorem c4_counterexample :
    bot_extract cexParse4 "msg" "2026-10-12" = Except.error ExtractErr.malformed ∧
    cexParse4 1 = some (JTop.jobj [("profit_loss", PVal.vnum 100)]) ∧
    webhook_extract cexParse4w "msg" "2026-10-12" =
      Except.ok [("profit_loss", PVal.vnum 100), ("date", PVal.vstr "2026-10-12"),
        ("raw_message", PVal.vstr "msg"), ("symbol", PVal.vstr "UNKNOWN"),
        ("instrument_type", PVal.vstr "Equity"),
        ("trade_direction", PVal.vstr "Long")] :=
  ⟨rfl, rfl, rfl⟩

/-- C4 amended: the webhook variant retries the oracle once on a JSON
parse failure (2 attempts total) and surfaces the malformed-response error
only after the second failure; the src/bot.py variant makes a single
attempt and surfaces the error on the first parse failure. -/
theorem c4_retry_budget_by_variant :
    (∀ (parseRes : ℕ → Option PMap) (raw today : String),
      parseRes 0 = none → parseRes 1 = none →
      webhook_extract parseRes raw today = Except.error ExtractErr.malformed) ∧
    (∀ (parseRes : ℕ → Option PMap) (m : PMap) (raw today : String),
      parseRes 0 = none → parseRes 1 = some m →
      webhook_extract parseRes raw today =
        (match webhookComplete m raw today with
         | some r => Except.ok r
         | none => Except.error ExtractErr.typeErr)) ∧
    (∀ (parseRes : ℕ → Option JTop) (raw today : String),
      parseRes 0 = none →
      bot_extract parseRes raw today = Except.error ExtractErr.malformed) := by
  refine ⟨?_, ?_, ?_⟩
  · intro parseRes raw today hp0 hp1
    unfold webhook_extract
    have hl : (List.range maxRetries).map parseRes = [parseRes 0, parseRes 1] := rfl
    rw [hl, hp0, hp1]
    rfl
  · intro parseRes m raw today hp0 hp1
    unfold webhook_extract
    have hl : (List.range maxRetries).map parseRes = [parseRes 0, parseRes 1] := rfl
    rw [hl, hp0, hp1]
    rfl
  · intro parseRes raw today hp0
    unfold bot_extract
    rw [hp0]

/-- Witness for the amended C4: both attempts failing yields the
malformed error; failure then success yields the second attempt's record;
a single failure already errors in the src/bot.py variant. -/
theorem c4_witness :
    webhook_extract (fun _ => none) "msg" "2026-10-12" =
      Except.error ExtractErr.malformed ∧
    webhook_extract cexParse4w "msg" "2026-10-12" =
      (match webhookComplete [("profit_loss", PVal.vnum 100)] "msg" "2026-10-12" with
       | some r => Except.ok r
       | none => Except.error ExtractErr.typeErr) ∧
    bot_extract cexParse4 "msg" "2026-10-12" = Except.error ExtractErr.malformed :=
  ⟨c4_retry_budget_by_variant.1 (fun _ => none) "msg" "2026-10-12" rfl rfl,
   c4_retry_budget_by_variant.2.1 cexParse4w [("profit_loss", PVal.vnum 100)]
     "msg" "2026-10-12" rfl rfl,
   c4_retry_budget_by_variant.2.2 cexParse4 "msg" "2026-10-12" rfl⟩

/-- C5 counterexample: when the oracle response parses to an empty JSON
sequence, the src/bot.py pipeline substitutes an empty mapping and returns
a fully defaulted record — it does not fail with any extraction error. -/
theorem c5_counterexample :
    bot_extract (fun _ => some (JTop.jarr [])) "msg" "2026-10-12" =
      Except.ok [("profit_loss", PVal.vnum 0), ("raw_message", PVal.vstr "msg"),
        ("date", PVal.vstr "2026-10-12"), ("symbol", PVal.vstr "UNKNOWN"),
        ("instrument_type", PVal.vstr "Equity"),
        ("trade_direction", PVal.vstr "Unknown")] ∧
    ∀ e : ExtractErr,
      bot_extract (fun _ => some (JTop.jarr [])) "msg" "2026-10-12" ≠
        Except.error e := by
  have hok : bot_extract (fun _ => some (JTop.jarr [])) "msg" "2026-10-12" =
      Except.ok [("profit_loss", PVal.vnum 0), ("raw_message", PVal.vstr "msg"),
        ("date", PVal.vstr "2026-10-12"), ("symbol", PVal.vstr "UNKNOWN"),
        ("instrument_type", PVal.vstr "Equity"),
        ("trade_direction", PVal.vstr "Unknown")] := rfl
  exact ⟨hok, fun e h => Except.noConfusion (hok.symm.trans h)⟩

/-- C5 amended: a JSON-sequence response is reduced to its first element;
an empty sequence is replaced by an empty mapping and extraction proceeds,
returning a record populated entirely by defaults (profit/loss 0, symbol
"UNKNOWN") instead of failing with an empty-result error. -/
theorem c5_first_element_and_empty_default :
    (∀ (m : PMap) (rest : List PMap) (raw today : String),
      bot_extract (fun _ => some (JTop.jarr (m :: rest))) raw today =
        bot_extract (fun _ => some (JTop.jobj m)) raw today) ∧
    (∀ raw today : String,
      bot_extract (fun _ => some (JTop.jarr [])) raw today =
        Except.ok [("profit_loss", PVal.vnum 0), ("raw_message", PVal.vstr raw),
          ("date", PVal.vstr today), ("symbol", PVal.vstr "UNKNOWN"),
          ("instrument_type", PVal.vstr "Equity"),
          ("trade_direction", PVal.vstr "Unknown")]) :=
  ⟨fun _ _ _ _ => rfl, fun _ _ => rfl⟩

/-- C6 counterexample: the webhook variant overwrites the oracle-supplied
date with today's date unconditionally: a mapping carrying date
"2020-01-01" completes to a record dated "2026-10-12". -/
theorem c6_counterexample :
    ∃ r, webhookComplete mDate6 "msg" "2026-10-12" = some r ∧
      pget mDate6 "date" = PVal.vstr "2020-01-01" ∧
      pget r "date" = PVal.vstr "2026-10-12" ∧
      PVal.vstr "2026-10-12" ≠ PVal.vstr "2020-01-01" := by
  have h1 : webhookPnlStep mDate6 = some mDate6 := by
    dsimp only [webhookPnlStep]
    rw [show pget mDate6 "profit_loss" = PVal.vnum 5 from rfl]
    simp [truthy]
  refine ⟨webhookDefaults (pset (pset mDate6 "date" (.vstr "2026-10-12"))
    "raw_message" (.vstr "msg")), by simp [webhookComplete, h1], rfl, ?_, by decide⟩
  unfold webhookDefaults
  rw [pget_setdefault_ne _ _ (by decide), pget_setdefault_ne _ _ (by decide),
    pget_setdefault_ne _ _ (by decide), pget_pset_ne _ _ (by decide), pget_pset_same]

/-- C6 amended: in the src/bot.py variant the completed record's date is
the oracle-supplied value when the key is present and today's date only
when it is absent, as claimed; in the webhook variant the date is
unconditionally set to today, discarding any oracle-supplied value. -/
theorem c6_date_by_variant :
    (∀ (m : PMap) (raw today : String) (r : PMap),
      botComplete m raw today = some r →
        (hasKey m "date" = true → pget r "date" = pget m "date") ∧
        (hasKey m "date" = false → pget r "date" = .vstr today)) ∧
    (∀ (m : PMap) (raw today : String) (r : PMap),
      webhookComplete m raw today = some r → pget r "date" = .vstr today) := by
  constructor
  · intro m raw today r hr
    obtain ⟨m1, hm1, hrw⟩ := Option.map_eq_some'.mp hr
    subst hrw
    have hpg : pget (pset m1 "raw_message" (.vstr raw)) "date" = pget m "date" := by
      rw [pget_pset_ne _ _ (by decide), botPnlStep_pget m m1 hm1 _ (by decide)]
    have hhk : hasKey (pset m1 "raw_message" (.vstr raw)) "date" = hasKey m "date" := by
      rw [hasKey_pset_ne _ _ (by decide), botPnlStep_hasKey m m1 hm1 _ (by decide)]
    unfold botDefaults
    constructor
    · intro hd
      rw [pget_setdefault_ne _ _ (by decide), pget_setdefault_ne _ _ (by decide),
        pget_setdefault_ne _ _ (by decide), pget_setdefault_pos _ _ (hhk.trans hd),
        hpg]
    · intro hd
      rw [pget_setdefault_ne _ _ (by decide), pget_setdefault_ne _ _ (by decide),
        pget_setdefault_ne _ _ (by decide), pget_setdefault_neg _ _ (hhk.trans hd)]
  · intro m raw today r hr
    obtain ⟨m1, hm1, hrw⟩ := Option.map_eq_some'.mp hr
    subst hrw
    unfold webhookDefaults
    rw [pget_setdefault_ne _ _ (by decide), pget_setdefault_ne _ _ (by decide),
      pget_setdefault_ne _ _ (by decide), pget_pset_ne _ _ (by decide),
      pget_pset_same]

/-- Witness for the amended C6: a record with an oracle date keeps it in
the src/bot.py variant and loses it in the webhook variant. -/
theorem c6_witness :
    (∀ r, botComplete mDate6 "msg" "2026-10-12" = some r →
      (hasKey mDate6 "date" = true → pget r "date" = pget mDate6 "date") ∧
      (hasKey mDate6 "date" = false → pget r "date" = .vstr "2026-10-12")) ∧
    (∀ r, webhookComplete mDate6 "msg" "2026-10-12" = some r →
      pget r "date" = .vstr "2026-10-12") :=
  ⟨fun r hr => c6_date_by_variant.1 mDate6 "msg" "2026-10-12" r hr,
   fun r hr => c6_date_by_variant.2 mDate6 "msg" "2026-10-12" r hr⟩

theorem takeBal_self : ∀ (cs : List Char) (n : ℕ) (out : List Char),
    takeBal cs n = some out → takeBal out n = some out := by
  intro cs
  induction cs with
  | nil => intro n out h; simp [takeBal] at h
  | cons c cs ih =>
    intro n out h
    simp only [takeBal] at h
    by_cases hlb : c = lbrace
    · rw [if_pos hlb] at h
      cases h' : takeBal cs (n + 1) with
      | none => rw [h'] at h; simp at h
      | some out' =>
        rw [h'] at h
        simp only [Option.map_some', Option.some.injEq] at h
        subst h
        simp only [takeBal, if_pos hlb, ih (n + 1) out' h', Option.map_some']
    · rw [if_neg hlb] at h
      by_cases hrb : c = rbrace
      · rw [if_pos hrb] at h
        by_cases hn : n = 1
        · rw [if_pos hn] at h
          have hout : out = [c] := (Option.some.inj h).symm
          subst hout
          simp only [takeBal, if_neg hlb, if_pos hrb, if_pos hn]
        · rw [if_neg hn] at h
          cases h' : takeBal cs (n - 1) with
          | none => rw [h'] at h; simp at h
          | some out' =>
            rw [h'] at h
            simp only [Option.map_some', Option.some.injEq] at h
            subst h
            simp only [takeBal, if_neg hlb, if_pos hrb, if_neg hn,
              ih (n - 1) out' h', Option.map_some']
      · rw [if_neg hrb] at h
        cases h' : takeBal cs n with
        | none => rw [h'] at h; simp at h
        | some out' =>
          rw [h'] at h
          simp only [Option.map_some', Option.some.injEq] at h
          subst h
          simp only [takeBal, if_neg hlb, if_neg hrb, ih n out' h',
            Option.map_some']

theorem del_refl (l : List Char) : Del l l := by
  induction l with
  | nil => exact Del.nil
  | cons c cs ih => exact Del.keep c ih

theorem del_commaSub : ∀ l : List Char, Del l (commaSub l) := by
  intro l
  induction l with
  | nil => exact Del.nil
  | cons c cs ih =>
    simp only [commaSub]
    split
    case isTrue hc =>
      have hc' : c = ',' := by
        have := (Bool.and_eq_true _ _).mp hc
        exact of_decide_eq_true this.1
      subst hc'
      exact Del.drop ih
    case isFalse hc => exact Del.keep c ih

theorem del_nil_eq {ds : List Char} (h : Del [] ds) : ds = [] := by
  cases h
  rfl

theorem mem_commaSub {x : Char} : ∀ {l : List Char}, x ∈ commaSub l → x ∈ l := by
  intro l
  induction l with
  | nil => simp [commaSub]
  | cons c cs ih =>
    simp only [commaSub]
    split
    · intro h
      exact List.mem_cons_of_mem _ (ih h)
    · intro h
      rcases List.mem_cons.mp h with rfl | h
      · exact List.mem_cons_self _ _
      · exact List.mem_cons_of_mem _ (ih h)

theorem del_takeBal_none {cs ds : List Char} (h : Del cs ds) :
    ∀ n : ℕ, takeBal cs n = none → takeBal ds n = none := by
  induction h with
  | nil => intro n h'; exact h'
  | keep c hdel ih =>
    intro n h'
    simp only [takeBal] at h' ⊢
    by_cases hlb : c = lbrace
    · rw [if_pos hlb] at h' ⊢
      rw [ih (n + 1) (Option.map_eq_none'.mp h')]
      rfl
    · rw [if_neg hlb] at h' ⊢
      by_cases hrb : c = rbrace
      · rw [if_pos hrb] at h' ⊢
        by_cases hn : n = 1
        · rw [if_pos hn] at h'
          exact absurd h' (by simp)
        · rw [if_neg hn] at h' ⊢
          rw [ih (n - 1) (Option.map_eq_none'.mp h')]
          rfl
      · rw [if_neg hrb] at h' ⊢
        rw [ih n (Option.map_eq_none'.mp h')]
        rfl
  | drop hdel ih =>
    intro n h'
    simp only [takeBal, if_neg (show ¬(',' = lbrace) by decide),
      if_neg (show ¬(',' = rbrace) by decide)] at h'
    exact ih n (Option.map_eq_none'.mp h')

theorem del_takeBal_full {cs ds : List Char} (h : Del cs ds) :
    ∀ n : ℕ, takeBal cs n = some cs → takeBal ds n = some ds := by
  induction h with
  | nil => intro n h'; simp [takeBal] at h'
  | keep c hdel ih =>
    intro n h'
    rename_i cs' ds'
    simp only [takeBal] at h' ⊢
    by_cases hlb : c = lbrace
    · rw [if_pos hlb] at h' ⊢
      obtain ⟨z, hz, hz2⟩ := Option.map_eq_some'.mp h'
      have hzz : z = cs' := (List.cons.inj hz2).2
      subst hzz
      rw [ih (n + 1) hz]
      rfl
    · rw [if_neg hlb] at h' ⊢
      by_cases hrb : c = rbrace
      · rw [if_pos hrb] at h' ⊢
        by_cases hn : n = 1
        · rw [if_pos hn] at h' ⊢
          have hcs : cs' = [] := by
            have := Option.some.inj h'
            exact ((List.cons.inj this).2).symm
          subst hcs
          rw [del_nil_eq hdel]
        · rw [if_neg hn] at h' ⊢
          obtain ⟨z, hz, hz2⟩ := Option.map_eq_some'.mp h'
          have hzz : z = cs' := (List.cons.inj hz2).2
          subst hzz
          rw [ih (n - 1) hz]
          rfl
      · rw [if_neg hrb] at h' ⊢
        obtain ⟨z, hz, hz2⟩ := Option.map_eq_some'.mp h'
        have hzz : z = cs' := (List.cons.inj hz2).2
        subst hzz
        rw [ih n hz]
        rfl
  | drop hdel ih =>
    intro n h'
    rename_i cs' ds'
    simp only [takeBal, if_neg (show ¬(',' = lbrace) by decide),
      if_neg (show ¬(',' = rbrace) by decide)] at h'
    obtain ⟨z, hz, hz2⟩ := Option.map_eq_some'.mp h'
    have hzz : z = cs' := (List.cons.inj hz2).2
    subst hzz
    exact ih n hz

theorem splitBrace_none_not_mem : ∀ l : List Char, splitBrace l = none → lbrace ∉ l := by
  intro l
  induction l with
  | nil => intro _; simp
  | cons c cs ih =>
    intro h
    simp only [splitBrace] at h
    by_cases hc : c = lbrace
    · rw [if_pos hc] at h
      exact absurd h (by simp)
    · rw [if_neg hc] at h
      cases h' : splitBrace cs with
      | none =>
        intro hmem
        rcases List.mem_cons.mp hmem with h1 | h1
        · exact hc h1.symm
        · exact ih h' h1
      | some pr =>
        obtain ⟨p, r⟩ := pr
        rw [h'] at h
        exact absurd h (by simp)

theorem splitBrace_of_not_mem : ∀ l : List Char, lbrace ∉ l → splitBrace l = none := by
  intro l
  induction l with
  | nil => intro _; rfl
  | cons c cs ih =>
    intro h
    have hc : ¬(c = lbrace) := fun hc => h (hc ▸ List.mem_cons_self _ _)
    have hcs : lbrace ∉ cs := fun hm => h (List.mem_cons_of_mem _ hm)
    simp only [splitBrace, if_neg hc, ih hcs]

theorem splitBrace_some : ∀ (l p r : List Char), splitBrace l = some (p, r) →
    l = p ++ lbrace :: r ∧ lbrace ∉ p := by
  intro l
  induction l with
  | nil => intro p r h; simp [splitBrace] at h
  | cons c cs ih =>
    intro p r h
    simp only [splitBrace] at h
    by_cases hc : c = lbrace
    · rw [if_pos hc] at h
      simp only [Option.some.injEq, Prod.mk.injEq] at h
      obtain ⟨h1, h2⟩ := h
      subst h1
      subst h2
      subst hc
      simp
    · rw [if_neg hc] at h
      cases h' : splitBrace cs with
      | none => rw [h'] at h; simp at h
      | some pr =>
        obtain ⟨p0, r0⟩ := pr
        rw [h'] at h
        simp only [Option.some.injEq, Prod.mk.injEq] at h
        obtain ⟨h1, h2⟩ := h
        subst h1
        subst h2
        obtain ⟨hl, hnm⟩ := ih p0 r0 h'
        constructor
        · rw [hl]
          rfl
        · intro hmem
          rcases List.mem_cons.mp hmem with h3 | h3
          · exact hc h3.symm
          · exact hnm h3

theorem splitBrace_append : ∀ (p r : List Char), lbrace ∉ p →
    splitBrace (p ++ lbrace :: r) = some (p, r) := by
  intro p
  induction p with
  | nil => intro r _; simp [splitBrace]
  | cons c p ih =>
    intro r h
    have hc : ¬(c = lbrace) := fun hc => h (hc ▸ List.mem_cons_self _ _)
    have hp : lbrace ∉ p := fun hm => h (List.mem_cons_of_mem _ hm)
    simp only [List.cons_append, splitBrace, if_neg hc, List.append_eq, ih r hp]

theorem commaMatch_cons_of_ws {c : Char} (l : List Char) (hws : pyWs c = true) :
    commaMatch (c :: l) = commaMatch l := by
  unfold commaMatch
  rw [List.dropWhile_cons_of_pos hws]

theorem commaMatch_cons_of_not_ws {c : Char} (l : List Char)
    (hws : ¬pyWs c = true) :
    commaMatch (c :: l) = (c = rbrace || c = ']') := by
  unfold commaMatch
  rw [List.dropWhile_cons_of_neg hws]

theorem commaMatch_append_lbrace : ∀ (p rest : List Char),
    commaMatch (p ++ lbrace :: rest) = commaMatch p := by
  intro p rest
  induction p with
  | nil => rfl
  | cons c p ih =>
    rw [List.cons_append]
    by_cases hws : pyWs c = true
    · rw [commaMatch_cons_of_ws _ hws, commaMatch_cons_of_ws _ hws, ih]
    · rw [commaMatch_cons_of_not_ws _ hws, commaMatch_cons_of_not_ws _ hws]

theorem commaSub_append_lbrace : ∀ (p rest : List Char),
    commaSub (p ++ lbrace :: rest) = commaSub p ++ lbrace :: commaSub rest := by
  intro p rest
  induction p with
  | nil => rfl
  | cons c p ih =>
    rw [List.cons_append]
    show (if (c = ',' && commaMatch (p ++ lbrace :: rest)) = true
        then commaSub (p ++ lbrace :: rest)
        else c :: commaSub (p ++ lbrace :: rest)) =
      (if (c = ',' && commaMatch p) = true
        then commaSub p else c :: commaSub p) ++ lbrace :: commaSub rest
    rw [commaMatch_append_lbrace]
    by_cases hcm : (c = ',' && commaMatch p) = true
    · rw [if_pos hcm, if_pos hcm, ih]
    · rw [if_neg hcm, if_neg hcm, ih, List.cons_append]

theorem braceSlice_commaSub (t : List Char) :
    braceSlice (commaSub (braceSlice t)) = commaSub (braceSlice t) := by
  cases h1 : splitBrace t with
  | none =>
    have hbt : braceSlice t = t := by simp [braceSlice, h1]
    rw [hbt]
    have hnm : lbrace ∉ t := splitBrace_none_not_mem t h1
    have hnm2 : lbrace ∉ commaSub t := fun hm => hnm (mem_commaSub hm)
    simp [braceSlice, splitBrace_of_not_mem _ hnm2]
  | some pr =>
    obtain ⟨p, rest⟩ := pr
    obtain ⟨ht, hp⟩ := splitBrace_some t p rest h1
    cases h2 : takeBal rest 1 with
    | none =>
      have hbt : braceSlice t = t := by simp [braceSlice, h1, h2]
      rw [hbt]
      have heq : commaSub t = commaSub p ++ lbrace :: commaSub rest := by
        rw [ht, commaSub_append_lbrace]
      have hnm2 : lbrace ∉ commaSub p := fun hm => hp (mem_commaSub hm)
      rw [heq]
      simp [braceSlice, splitBrace_append _ _ hnm2,
        del_takeBal_none (del_commaSub rest) 1 h2]
    | some out =>
      have hbt : braceSlice t = lbrace :: out := by simp [braceSlice, h1, h2]
      rw [hbt]
      have hc : commaSub (lbrace :: out) = lbrace :: commaSub out := rfl
      rw [hc]
      simp [braceSlice, show splitBrace (lbrace :: commaSub out) =
          some ([], commaSub out) from rfl,
        del_takeBal_full (del_commaSub out) 1 (takeBal_self rest 1 out h2)]

theorem fenceSel_of_not_contains3 {t : List Char} (h : contains3 t = false) :
    fenceSel t = t := by
  simp [fenceSel, h]

/-- C8 counterexample: two texts, each containing exactly one JSON object
with brace-free surroundings and trailing prose, on which sanitizing
twice differs from sanitizing once.  First, `x` + an object whose string
value holds a fence marker + `rest`: the first pass keeps the object (no
split part starts with a brace or json tag), the second pass splits at
the fence inside the extracted object.  Second, an object whose string
value holds consecutive commas before a closing bracket, with no fence
marker anywhere in the text: the trailing-comma repair cascades, deleting
one comma per pass. -/
theorem c8_counterexample :
    ((∃ pre obj post, ex8 = pre ++ obj ++ post ∧ isJsonObject obj = true ∧
        lbrace ∉ pre ∧ rbrace ∉ pre ∧ lbrace ∉ post ∧ rbrace ∉ post) ∧
      clean_json_response (clean_json_response ex8) ≠ clean_json_response ex8) ∧
    ((∃ pre obj post, ex8b = pre ++ obj ++ post ∧ isJsonObject obj = true ∧
        lbrace ∉ pre ∧ rbrace ∉ pre ∧ lbrace ∉ post ∧ rbrace ∉ post) ∧
      contains3 ex8b = false ∧
      clean_json_response (clean_json_response ex8b) ≠ clean_json_response ex8b) := by
  refine ⟨⟨?_, by decide⟩, ⟨?_, by decide, by decide⟩⟩
  · exact ⟨['x'], ex8obj, ['r', 'e', 's', 't'], by decide, by decide,
      by decide, by decide, by decide, by decide⟩
  · exact ⟨[], ex8bobj, [' ', 't'], by decide, by decide,
      by decide, by decide, by decide, by decide⟩

/-- C8 amended: applying the sanitizer twice gives the same result as
applying it once exactly under the two side conditions the code's repair
steps impose — the sanitizer's output contains no fence marker, and the
output is a fixpoint of the trailing-comma repair.  A text containing
exactly one JSON object, possibly fenced, with trailing prose need not
meet either condition: the object's string values can carry a fence
marker (first counterexample input) or consecutive commas before a
closing bracket, on which the comma repair cascades across passes
(second counterexample input). -/
theorem c8_sanitize_idempotent (t : List Char)
    (h1 : contains3 (clean_json_response t) = false)
    (h2 : commaSub (clean_json_response t) = clean_json_response t) :
    clean_json_response (clean_json_response t) = clean_json_response t := by
  have key := braceSlice_commaSub (fenceSel t)
  calc clean_json_response (clean_json_response t)
      = commaSub (braceSlice (fenceSel (clean_json_response t))) := rfl
    _ = commaSub (braceSlice (clean_json_response t)) := by
        rw [fenceSel_of_not_contains3 h1]
    _ = commaSub (braceSlice (commaSub (braceSlice (fenceSel t)))) := rfl
    _ = commaSub (commaSub (braceSlice (fenceSel t))) := by rw [key]
    _ = commaSub (clean_json_response t) := rfl
    _ = clean_json_response t := h2

/-- Witness for the amended C8: a text with leading noise, one JSON
object and trailing prose sanitizes to the bare object, satisfies both
side conditions, and is left fixed by a second sanitizer pass. -/
theorem c8_witness :
    contains3 (clean_json_response wit8) = false ∧
    commaSub (clean_json_response wit8) = clean_json_response wit8 ∧
    clean_json_response (clean_json_response wit8) = clean_json_response wit8 :=
  ⟨by decide, by decide, c8_sanitize_idempotent wit8 (by decide) (by decide)⟩

end TradingTracker
